import Mathlib

/-!
Verification of the `fetchncache` command-line utility (`cmd/fetchncache/main.go`).

The Go program is shallowly embedded here.  Go strings and byte slices are
modelled as `List Char` (the sources only manipulate them byte-wise /
rune-wise in ways where this is faithful for the inputs considered).
External collaborators (the `time` package's timezone database and layout
formatter, the network, the filesystem) are modelled as explicit parameters:
a `TimeEnv` bundle for `time`, a `fs : List Char → Bool` write-success
oracle for the filesystem, and a `FetchRes` value for the HTTP exchange.
-/

/-- Coerce a Lean string literal to the `List Char` representation used
throughout for Go strings. -/
def gs (s : String) : List Char := s.data

/-! ## Go `strings` package primitives (the ones the program uses) -/

/-- Helper for `splitOnChar`: accumulates the current field (reversed). -/
def splitOnCharAux (c : Char) : List Char → List Char → List (List Char)
  | [], acc => [acc.reverse]
  | x :: xs, acc =>
    if x = c then acc.reverse :: splitOnCharAux c xs []
    else splitOnCharAux c xs (x :: acc)

/-- Go `strings.Split(s, sep)` for a one-character separator: every
occurrence splits, empty fields are kept, the result is never empty. -/
def splitOnChar (c : Char) (s : List Char) : List (List Char) :=
  splitOnCharAux c s []

/-- Whether `p` occurs at the start of `s` (Go `strings.HasPrefix s p`). -/
def startsWithL : List Char → List Char → Bool
  | _, [] => true
  | [], _ :: _ => false
  | a :: as, b :: bs => a = b && startsWithL as bs

/-- Whether `p` occurs at the end of `s` (Go `strings.HasSuffix s p`). -/
def endsWithL (s p : List Char) : Bool :=
  startsWithL s.reverse p.reverse

/-- Whether `sub` occurs somewhere inside `s` (Go `strings.Contains s sub`). -/
def containsL : List Char → List Char → Bool
  | s, sub =>
    if startsWithL s sub then true
    else match s with
      | [] => false
      | _ :: rest => containsL rest sub

/-- Go `strings.TrimSuffix s suf`. -/
def trimSuffixL (s suf : List Char) : List Char :=
  if endsWithL s suf then s.take (s.length - suf.length) else s

/-- Go `strings.ToLower`, restricted to ASCII (the paths in play are ASCII;
the Unicode case table beyond ASCII is not modelled). -/
def toLowerL (s : List Char) : List Char :=
  s.map fun c => if 'A' ≤ c ∧ c ≤ 'Z' then Char.ofNat (c.toNat + 32) else c

/-- Go `strings.ReplaceAll s old new` for a non-empty `old` (the program
only calls it with the literal `"{pattern}"` and with `":"`).  At each
position, if `old` matches it is consumed and `new` emitted, otherwise one
character is copied. -/
def replaceAllL (old new : List Char) (s : List Char) : List Char :=
  match s with
  | [] => []
  | c :: rest =>
    if startsWithL (c :: rest) old then
      new ++ replaceAllL old new (List.drop (old.length - 1) rest)
    else
      c :: replaceAllL old new rest
termination_by s.length
decreasing_by
  · simp only [List.length_drop, List.length_cons]
    omega
  · simp only [List.length_cons]
    omega

/-! ## Pattern Resolver (`generatePatternValue`, main.go lines 43–98) -/

/-- Model of the external `time` package: `tzdb` is `time.LoadLocation`,
`utcOf` is `Time.UTC`, `inZone` is `Time.In`, and `fmtTime layout t` is
`t.Format(layout)`.  `T` is the timestamp type, `L` the location type. -/
structure TimeEnv (T L : Type) where
  tzdb : List Char → Option L
  utcOf : T → T
  inZone : L → T → T
  fmtTime : List Char → T → List Char

/-- Failure modes of `generatePatternValue` / `validatePattern`, one per
distinct `fmt.Errorf` site. -/
inductive PatternErr where
  | badComponentCount
  | unknownTimezone
  | unsupportedDateTimeFormat
  | unsupportedProcessing
deriving DecidableEq, Repr

/-- The `switch parts[0]` of `generatePatternValue`: maps the format name
to the Go layout constant, `none` for the `default` error branch. -/
def layoutOf (p : List Char) : Option (List Char) :=
  if p = gs "DateTime" then some (gs "2006-01-02 15:04:05")
  else if p = gs "DateOnly" then some (gs "2006-01-02")
  else if p = gs "TimeOnly" then some (gs "15:04:05")
  else if p = gs "RFC3339" then some (gs "2006-01-02T15:04:05Z07:00")
  else if p = gs "Kitchen" then some (gs "3:04PM")
  else if p = gs "Stamp" then some (gs "Jan _2 15:04:05")
  else if p = gs "DATETIME_SIMPLE_FS" then some (gs "2006-01-02 1504")
  else none

/-- Go `strings.ReplaceAll(formatted, ":", "-")`: with a one-character old
and new string this is exactly a character-wise substitution. -/
def replaceColonDash (s : List Char) : List Char :=
  s.map fun c => if c = ':' then '-' else c

/-- `generatePatternValue(pattern)` (main.go 43–98) with the wall-clock
read `time.Now()` injected as `now`.  Steps in source order: split on `-`
and require 3 components; timezone conversion (`UTC` special-cased, else
`time.LoadLocation`); layout selection; `now.Format(layout)`; processing
(`slug` replaces every `:` with `-`, anything else errors). -/
def generatePatternValue {T L : Type} (te : TimeEnv T L) (now : T)
    (pattern : List Char) : Except PatternErr (List Char) :=
  match splitOnChar '-' pattern with
  | [p0, p1, p2] =>
    let step2 : Except PatternErr T :=
      if p1 = gs "UTC" then .ok (te.utcOf now)
      else match te.tzdb p1 with
        | none => .error .unknownTimezone
        | some loc => .ok (te.inZone loc now)
    match step2 with
    | .error e => .error e
    | .ok nowTz =>
      match layoutOf p0 with
      | none => .error .unsupportedDateTimeFormat
      | some layout =>
        let formatted := te.fmtTime layout nowTz
        if p2 = gs "slug" then .ok (replaceColonDash formatted)
        else .error .unsupportedProcessing
  | _ => .error .badComponentCount

/-- `validatePattern` (main.go 277–308): same split, then format check,
then timezone check, then processing check, without formatting anything. -/
def validatePattern {L : Type} (tzdb : List Char → Option L)
    (pattern : List Char) : Except PatternErr Unit :=
  match splitOnChar '-' pattern with
  | [p0, p1, p2] =>
    match layoutOf p0 with
    | none => .error .unsupportedDateTimeFormat
    | some _ =>
      let tzOk : Except PatternErr Unit :=
        if p1 = gs "UTC" then .ok ()
        else match tzdb p1 with
          | none => .error .unknownTimezone
          | some _ => .ok ()
      match tzOk with
      | .error e => .error e
      | .ok _ =>
        if p2 = gs "slug" then .ok () else .error .unsupportedProcessing
  | _ => .error .badComponentCount

/-! ## Path Resolver (`Target.GetResolvedPath`, `validatePathConfig`) -/

/-- One element of a YAML `path` array (`[]interface{}` in Go): either a
decoded object — each field is `some` exactly when present with a string
value, mirroring the `configMap["…"].(string)` type assertions — or a
non-object value. -/
inductive PathElem where
  | obj (strField : Option (List Char)) (patternField : Option (List Char))
  | nonObj
deriving DecidableEq, Repr

/-- The YAML-decoded `Target.Path interface{}`: a string, an array, or any
other shape (the `default` branch of the type switch). -/
inductive PathVal where
  | str (s : List Char)
  | pathList (elems : List PathElem)
  | otherVal
deriving DecidableEq, Repr

/-- Failure modes of path resolution/validation, one per `fmt.Errorf`
site; `patternInvalid` wraps the Pattern Resolver's error. -/
inductive PathErr where
  | arrayNotSingleton
  | elemNotObject
  | missingFields
  | emptyTemplate
  | missingPlaceholder
  | patternInvalid (e : PatternErr)
  | notStringOrObject
  | emptyPath
deriving DecidableEq, Repr

/-- `Target.GetResolvedPath` (main.go 101–140).  A string path is returned
unchanged — with no emptiness check.  An array must hold exactly one
object with string fields `string` and `pattern`; the template must
contain `{pattern}`; then every occurrence of `{pattern}` is replaced by
the generated pattern value. -/
def getResolvedPath {T L : Type} (te : TimeEnv T L) (now : T) (p : PathVal) :
    Except PathErr (List Char) :=
  match p with
  | .str v => .ok v
  | .pathList v =>
    match v with
    | [PathElem.obj os op] =>
      match os, op with
      | some template, some pattern =>
        if containsL template (gs "{pattern}") then
          match generatePatternValue te now pattern with
          | .error e => .error (.patternInvalid e)
          | .ok pv => .ok (replaceAllL (gs "{pattern}") pv template)
        else .error .missingPlaceholder
      | _, _ => .error .missingFields
    | [PathElem.nonObj] => .error .elemNotObject
    | _ => .error .arrayNotSingleton
  | .otherVal => .error .notStringOrObject

/-- `validatePathConfig` (main.go 238–275): a string path must be
non-empty; an array path must be a single object with both fields, a
non-empty template containing `{pattern}`, and a valid pattern. -/
def validatePathConfig {L : Type} (tzdb : List Char → Option L)
    (p : PathVal) : Except PathErr Unit :=
  match p with
  | .str v => if v = [] then .error .emptyPath else .ok ()
  | .pathList v =>
    match v with
    | [PathElem.obj os op] =>
      match os, op with
      | some template, some pattern =>
        if template = [] then .error .emptyTemplate
        else if containsL template (gs "{pattern}") then
          match validatePattern tzdb pattern with
          | .error e => .error (.patternInvalid e)
          | .ok _ => .ok ()
        else .error .missingPlaceholder
      | _, _ => .error .missingFields
    | [PathElem.nonObj] => .error .elemNotObject
    | _ => .error .arrayNotSingleton
  | .otherVal => .error .notStringOrObject

/-! ## Go `path/filepath` (Unix flavour, as used by `generateLatestPath`) -/

/-- One step of `filepath.Clean`'s element processing: the output stack is
kept in reverse order.  Empty and `.` elements are dropped; `..` pops a
poppable element, is kept at the start of a relative path, and is dropped
at the root of an absolute one. -/
def cleanStep (rooted : Bool) (stack : List (List Char)) (e : List Char) :
    List (List Char) :=
  if e = [] ∨ e = ['.'] then stack
  else if e = ['.', '.'] then
    match stack with
    | top :: rest => if top = ['.', '.'] then e :: stack else rest
    | [] => if rooted then [] else [e]
  else e :: stack

/-- Go `filepath.Clean` (Unix), reimplemented at the path-element level:
split on `/`, process elements with `cleanStep`, re-join; an empty
relative result becomes `.`, an empty rooted result `/`.  This is the
standard element-stack equivalent of Go's byte-level lazybuf algorithm. -/
def cleanPath (p : List Char) : List Char :=
  if p = [] then ['.']
  else
    let rooted := startsWithL p ['/']
    let elems := splitOnChar '/' p
    let stack := (elems.foldl (cleanStep rooted) []).reverse
    let joined := (stack.intersperse ['/']).flatten
    if rooted then '/' :: joined
    else if joined = [] then ['.']
    else joined

/-- Whether a character is not the path separator. -/
def nonSlash (c : Char) : Bool := if c = '/' then false else true

/-- Whether a character is the path separator. -/
def isSlashB (c : Char) : Bool := if c = '/' then true else false

/-- Whether a character is not a dot. -/
def nonDot (c : Char) : Bool := if c = '.' then false else true

/-- Go `filepath.Dir` (Unix, no volume names): everything up to and
including the final `/`, passed through `Clean`; `.` when there is no
separator at all. -/
def dirPath (p : List Char) : List Char :=
  let revTail := p.reverse.takeWhile nonSlash
  if revTail.length = p.length then cleanPath []
  else cleanPath (p.take (p.length - revTail.length))

/-- Go `filepath.Base` (Unix): empty path gives `.`, trailing separators
are stripped, then the part after the last separator; an all-separator
path gives `/`. -/
def basePath (p : List Char) : List Char :=
  if p = [] then ['.']
  else
    let q := (p.reverse.dropWhile isSlashB).reverse
    if q = [] then ['/']
    else (q.reverse.takeWhile nonSlash).reverse

/-- Go `filepath.Ext`: the suffix starting at the final dot in the final
path element, empty when that element has no dot.  The scan from the end
stops at a separator, so a trailing `/` means no extension. -/
def extPath (p : List Char) : List Char :=
  let revScan := p.reverse.takeWhile nonSlash
  if revScan.dropWhile nonDot = [] then []
  else (revScan.takeWhile nonDot ++ ['.']).reverse

/-- Go `filepath.Join(a, b)` for two elements: non-empty elements joined
with `/`, then `Clean`; all-empty input gives the empty string. -/
def joinPath (a b : List Char) : List Char :=
  if a = [] ∧ b = [] then []
  else if a = [] then cleanPath b
  else if b = [] then cleanPath a
  else cleanPath (a ++ '/' :: b)

/-- `generateLatestPath` (main.go 152–170): `latest.pp.json` when the
filename contains `.pp.json`; `latest.json` when it ends in `.json`;
otherwise `latest` plus the path's extension (which may be empty), always
joined onto the original directory. -/
def generateLatestPath (resolvedPath : List Char) : List Char :=
  let dir := dirPath resolvedPath
  let filename := basePath resolvedPath
  if containsL filename (gs ".pp.json") then joinPath dir (gs "latest.pp.json")
  else if endsWithL filename (gs ".json") then joinPath dir (gs "latest.json")
  else
    let ext := extPath resolvedPath
    if ext = [] then joinPath dir (gs "latest")
    else joinPath dir (gs "latest" ++ ext)

/-! ## Header Parser (`parseHeaders`, main.go 344–365) -/

/-- Go `textproto` valid header-field byte: digits, letters, and the token
characters `! # $ % & ' * + - . ^ _ | ~` and backquote (codes given
numerically). -/
def validHeaderFieldChar (c : Char) : Bool :=
  let n := c.toNat
  decide ((48 ≤ n ∧ n ≤ 57) ∨ (97 ≤ n ∧ n ≤ 122) ∨ (65 ≤ n ∧ n ≤ 90) ∨
    n = 33 ∨ n = 35 ∨ n = 36 ∨ n = 37 ∨ n = 38 ∨ n = 39 ∨ n = 42 ∨ n = 43 ∨
    n = 45 ∨ n = 46 ∨ n = 94 ∨ n = 95 ∨ n = 96 ∨ n = 124 ∨ n = 126)

/-- The case-normalisation pass of `textproto.CanonicalMIMEHeaderKey`:
uppercase a letter at the start and after each `-`, lowercase elsewhere. -/
def canonicalizeCase : Bool → List Char → List Char
  | _, [] => []
  | up, c :: rest =>
    let c2 : Char :=
      if up ∧ 'a' ≤ c ∧ c ≤ 'z' then Char.ofNat (c.toNat - 32)
      else if ¬ up ∧ 'A' ≤ c ∧ c ≤ 'Z' then Char.ofNat (c.toNat + 32)
      else c
    c2 :: canonicalizeCase (c2 = '-') rest

/-- Go `textproto.CanonicalMIMEHeaderKey` (used by `http.Header.Set`): a
key with any invalid byte is returned unchanged, otherwise it is
case-normalised. -/
def canonicalMIMEHeaderKey (s : List Char) : List Char :=
  if s.all validHeaderFieldChar then canonicalizeCase true s else s

/-- Replace-or-append on an association list: the model of assigning
`m[k] = v` in a Go map. -/
def setAssoc (m : List (List Char × List Char)) (k v : List Char) :
    List (List Char × List Char) :=
  match m with
  | [] => [(k, v)]
  | (k2, v2) :: rest => if k2 = k then (k, v) :: rest else (k2, v2) :: setAssoc rest k v

/-- Lookup on the association list (the model of `m[k]` / `Header.Get`). -/
def getAssoc (m : List (List Char × List Char)) (k : List Char) :
    Option (List Char) :=
  match m with
  | [] => none
  | (k2, v2) :: rest => if k2 = k then some v2 else getAssoc rest k

/-- Helper for `splitN2`: scans for the first occurrence of `sep`. -/
def splitN2Aux (sep : List Char) : List Char → List Char →
    List Char × Option (List Char)
  | [], acc => (acc.reverse, none)
  | c :: rest, acc =>
    if startsWithL (c :: rest) sep then
      (acc.reverse, some (List.drop (sep.length - 1) rest))
    else splitN2Aux sep rest (c :: acc)

/-- Go `strings.SplitN(s, sep, 2)` for the non-empty separator `": "`:
the part before the first occurrence, and the part after it when found. -/
def splitN2 (sep s : List Char) : List Char × Option (List Char) :=
  splitN2Aux sep s []

/-- Whitespace class of Go `strings.TrimSpace` (`unicode.IsSpace`),
restricted to the Latin-1 members: space, tab, LF, VT, FF, CR, NEL, NBSP.
Header lines in play are ASCII, so the wider Unicode classes are not
modelled. -/
def isGoSpace (c : Char) : Bool :=
  decide (c.toNat = 32 ∨ c.toNat = 9 ∨ c.toNat = 10 ∨ c.toNat = 11 ∨
    c.toNat = 12 ∨ c.toNat = 13 ∨ c.toNat = 133 ∨ c.toNat = 160)

/-- Go `strings.TrimSpace`. -/
def trimSpaceL (s : List Char) : List Char :=
  ((s.dropWhile isGoSpace).reverse.dropWhile isGoSpace).reverse

/-- Failure modes of `parseHeaders`, one per `fmt.Errorf` site. -/
inductive HdrErr where
  | badFormat
  | emptyName
deriving DecidableEq, Repr

/-- Loop body of `parseHeaders`, threading the accumulated `http.Header`
map: empty lines are skipped, a line without `": "` is an error, the name
and value are whitespace-trimmed, an empty trimmed name is an error, and
`headers.Set(name, value)` stores the value under the canonical key,
overwriting any earlier value. -/
def parseHeadersAux (m : List (List Char × List Char)) :
    List (List Char) → Except HdrErr (List (List Char × List Char))
  | [] => .ok m
  | l :: rest =>
    if l = [] then parseHeadersAux m rest
    else
      match (splitN2 (gs ": ") l).2 with
      | none => .error .badFormat
      | some p1 =>
        let name := trimSpaceL (splitN2 (gs ": ") l).1
        let value := trimSpaceL p1
        if name = [] then .error .emptyName
        else parseHeadersAux (setAssoc m (canonicalMIMEHeaderKey name) value) rest

/-- `parseHeaders` (main.go 344–365). -/
def parseHeaders (headerStrings : List (List Char)) :
    Except HdrErr (List (List Char × List Char)) :=
  parseHeadersAux [] headerStrings

/-! ## JSON model (`encoding/json` as used by `formatJSON`)

The program decodes a body with `json.Unmarshal` into `any` and re-encodes
it with `json.Marshal` / `json.MarshalIndent(v, "", "  ")`.  The model
covers the sublanguage needed here: `null`, booleans, integer numbers of
at most 15 digits (exactly representable in Go's `float64` decoding, and
re-encoded by Go as the same integer), escape-free printable-ASCII strings
without the HTML-escaped characters, arrays, and objects.  Everything the
model's parser accepts, Go's decoder accepts with the corresponding value
and re-encodes exactly as the model's `jsonMarshal` does (Go sorts map
keys, so `jsonParseObjBody` keeps fields sorted by key, last duplicate
winning as in a Go map). -/

/-- JSON values decoded from a body (`any` in Go). -/
inductive JsonVal where
  | null
  | bool (b : Bool)
  | num (n : Int)
  | str (s : List Char)
  | arr (items : List JsonVal)
  | obj (fields : List (List Char × JsonVal))
deriving Repr

/-- Opening brace character, written numerically. -/
def lbrace : Char := Char.ofNat 123

/-- Closing brace character, written numerically. -/
def rbrace : Char := Char.ofNat 125

/-- JSON insignificant whitespace: space, tab, LF, CR. -/
def jsonSkipWs (s : List Char) : List Char :=
  s.dropWhile fun c =>
    decide (c.toNat = 32 ∨ c.toNat = 9 ∨ c.toNat = 10 ∨ c.toNat = 13)

/-- ASCII digit test. -/
def jsonIsDigit (c : Char) : Bool := decide (48 ≤ c.toNat ∧ c.toNat ≤ 57)

/-- Digits to a natural number. -/
def digitsToNat (ds : List Char) : Nat :=
  ds.foldl (fun a c => a * 10 + (c.toNat - 48)) 0

/-- Natural number to decimal digits. -/
def natToChars (n : Nat) : List Char := Nat.toDigits 10 n

/-- Integer to decimal digits with sign. -/
def intToChars (n : Int) : List Char :=
  if n < 0 then '-' :: natToChars n.natAbs else natToChars n.natAbs

/-- String characters the model admits: printable ASCII except the quote,
backslash, and the characters Go's encoder HTML-escapes (`<`, `>`, `&`).
Anything else makes the model's parser reject, keeping its language a
subset of Go's. -/
def jsonStrOkChar (c : Char) : Bool :=
  decide (32 ≤ c.toNat ∧ c.toNat ≤ 126 ∧ c.toNat ≠ 34 ∧ c.toNat ≠ 92 ∧
    c.toNat ≠ 60 ∧ c.toNat ≠ 62 ∧ c.toNat ≠ 38)

/-- Parse the body of a JSON string after the opening quote; returns the
content and the remainder after the closing quote. -/
def jsonParseStrBody (s : List Char) : Option (List Char × List Char) :=
  let content := s.takeWhile jsonStrOkChar
  match s.drop content.length with
  | c :: rest => if c = '"' then some (content, rest) else none
  | [] => none

/-- Parse an integer JSON number: optional minus, no leading zeros, at
most 15 digits, and no fraction/exponent continuation (those forms are
outside the modelled sublanguage and are rejected). -/
def jsonParseNum (s : List Char) : Option (JsonVal × List Char) :=
  match s with
  | [] => none
  | c :: rest =>
    if c = '-' then
      match jsonParseNum rest with
      | some (.num n, r) => if 0 < n then some (.num (-n), r) else none
      | _ => none
    else if jsonIsDigit c then
      let ds := (c :: rest).takeWhile jsonIsDigit
      if (c = '0' ∧ ds.length ≠ 1) ∨ 15 < ds.length then none
      else
        match (c :: rest).drop ds.length with
        | c2 :: r2 =>
          if c2 = '.' ∨ c2 = 'e' ∨ c2 = 'E' then none
          else some (.num (Int.ofNat (digitsToNat ds)), c2 :: r2)
        | [] => some (.num (Int.ofNat (digitsToNat ds)), [])
    else none

/-- Bytewise lexicographic order on strings (Go `sort.Strings` order for
the ASCII keys in play). -/
def lexLtL : List Char → List Char → Bool
  | [], [] => false
  | [], _ :: _ => true
  | _ :: _, [] => false
  | a :: as, b :: bs => if a = b then lexLtL as bs else decide (a.toNat < b.toNat)

/-- Insert a field into a key-sorted field list, replacing an existing
equal key (a Go map assignment, with `json.Marshal`'s key-sorted output
order maintained eagerly). -/
def objInsertSorted (k : List Char) (v : JsonVal) :
    List (List Char × JsonVal) → List (List Char × JsonVal)
  | [] => [(k, v)]
  | (k2, v2) :: rest =>
    if k = k2 then (k, v) :: rest
    else if lexLtL k k2 then (k, v) :: (k2, v2) :: rest
    else (k2, v2) :: objInsertSorted k v rest

mutual

/-- Recursive-descent JSON value parser over the modelled sublanguage,
with explicit fuel; the input is whitespace-skipped at entry. -/
def jsonParseVal : Nat → List Char → Option (JsonVal × List Char)
  | 0, _ => none
  | fuel + 1, s =>
    match s with
    | [] => none
    | c :: rest =>
      if c = lbrace then jsonParseObjBody fuel [] (jsonSkipWs rest) true
      else if c = '[' then jsonParseArrBody fuel [] (jsonSkipWs rest) true
      else if c = '"' then
        match jsonParseStrBody rest with
        | none => none
        | some (cs, r) => some (.str cs, r)
      else if startsWithL s (gs "null") then some (.null, s.drop 4)
      else if startsWithL s (gs "true") then some (.bool true, s.drop 4)
      else if startsWithL s (gs "false") then some (.bool false, s.drop 5)
      else jsonParseNum s

/-- Array elements after `[`; `first` is true before any element. -/
def jsonParseArrBody : Nat → List JsonVal → List Char → Bool →
    Option (JsonVal × List Char)
  | 0, _, _, _ => none
  | fuel + 1, acc, s, first =>
    match s with
    | [] => none
    | c :: rest =>
      if c = ']' ∧ first then some (.arr [], rest)
      else
        match jsonParseVal fuel (c :: rest) with
        | none => none
        | some (v, r) =>
          match jsonSkipWs r with
          | c2 :: r2 =>
            if c2 = ',' then jsonParseArrBody fuel (acc ++ [v]) (jsonSkipWs r2) false
            else if c2 = ']' then some (.arr (acc ++ [v]), r2)
            else none
          | [] => none

/-- Object members after the opening brace; `first` is true before any
member. -/
def jsonParseObjBody : Nat → List (List Char × JsonVal) → List Char → Bool →
    Option (JsonVal × List Char)
  | 0, _, _, _ => none
  | fuel + 1, acc, s, first =>
    match s with
    | [] => none
    | c :: rest =>
      if c = rbrace ∧ first then some (.obj [], rest)
      else if c = '"' then
        match jsonParseStrBody rest with
        | none => none
        | some (k, r) =>
          match jsonSkipWs r with
          | c2 :: r2 =>
            if c2 = ':' then
              match jsonParseVal fuel (jsonSkipWs r2) with
              | none => none
              | some (v, r3) =>
                match jsonSkipWs r3 with
                | c3 :: r4 =>
                  if c3 = ',' then
                    jsonParseObjBody fuel (objInsertSorted k v acc) (jsonSkipWs r4) false
                  else if c3 = rbrace then some (.obj (objInsertSorted k v acc), r4)
                  else none
                | [] => none
            else none
          | [] => none
      else none

end

/-- `json.Unmarshal(data, &jsonData)`: one value, surrounded by optional
whitespace only. -/
def jsonParse (data : List Char) : Option JsonVal :=
  match jsonParseVal (2 * data.length + 2) (jsonSkipWs data) with
  | some (v, rest) => if jsonSkipWs rest = [] then some v else none
  | none => none

mutual

/-- `json.Marshal` of a decoded value: compact encoding, object keys
already key-sorted by construction. -/
def jsonMarshal : JsonVal → List Char
  | .null => gs "null"
  | .bool b => if b then gs "true" else gs "false"
  | .num n => intToChars n
  | .str s => '"' :: (s ++ ['"'])
  | .arr items => '[' :: (jsonMarshalArr items ++ [']'])
  | .obj fields => lbrace :: (jsonMarshalObj fields ++ [rbrace])

/-- Comma-separated compact elements. -/
def jsonMarshalArr : List JsonVal → List Char
  | [] => []
  | [v] => jsonMarshal v
  | v :: v2 :: rest => jsonMarshal v ++ ',' :: jsonMarshalArr (v2 :: rest)

/-- Comma-separated compact `"key":value` members. -/
def jsonMarshalObj : List (List Char × JsonVal) → List Char
  | [] => []
  | [(k, v)] => '"' :: (k ++ '"' :: ':' :: jsonMarshal v)
  | (k, v) :: f2 :: rest =>
    ('"' :: (k ++ '"' :: ':' :: jsonMarshal v)) ++ ',' :: jsonMarshalObj (f2 :: rest)

end

/-- Indentation for depth `d` with the program's `"  "` indent unit. -/
def indentChars (d : Nat) : List Char := List.replicate (2 * d) ' '

/-- Newline character. -/
def nlChar : Char := Char.ofNat 10

mutual

/-- `json.MarshalIndent(v, "", "  ")` at nesting depth `d`: compound
values put each element on its own line, empty compounds stay inline. -/
def jsonMarshalInd : Nat → JsonVal → List Char
  | _, .null => gs "null"
  | _, .bool b => if b then gs "true" else gs "false"
  | _, .num n => intToChars n
  | _, .str s => '"' :: (s ++ ['"'])
  | _, .arr [] => gs "[]"
  | d, .arr (v :: vs) =>
    '[' :: (jsonMarshalIndArr (d + 1) (v :: vs) ++ nlChar :: (indentChars d ++ [']']))
  | _, .obj [] => [lbrace, rbrace]
  | d, .obj (f :: fs) =>
    lbrace :: (jsonMarshalIndObj (d + 1) (f :: fs) ++ nlChar :: (indentChars d ++ [rbrace]))

/-- Indented array elements, each on its own line. -/
def jsonMarshalIndArr : Nat → List JsonVal → List Char
  | _, [] => []
  | d, [v] => nlChar :: (indentChars d ++ jsonMarshalInd d v)
  | d, v :: v2 :: rest =>
    (nlChar :: (indentChars d ++ jsonMarshalInd d v)) ++ ',' :: jsonMarshalIndArr d (v2 :: rest)

/-- Indented `"key": value` members, each on its own line. -/
def jsonMarshalIndObj : Nat → List (List Char × JsonVal) → List Char
  | _, [] => []
  | d, [(k, v)] =>
    nlChar :: (indentChars d ++ '"' :: (k ++ '"' :: ':' :: ' ' :: jsonMarshalInd d v))
  | d, (k, v) :: f2 :: rest =>
    (nlChar :: (indentChars d ++ '"' :: (k ++ '"' :: ':' :: ' ' :: jsonMarshalInd d v))) ++
      ',' :: jsonMarshalIndObj d (f2 :: rest)

end

/-- `json.MarshalIndent(jsonData, "", "  ")`. -/
def jsonMarshalIndent (v : JsonVal) : List Char := jsonMarshalInd 0 v

/-! ## JSON Formatter (`formatJSON`, `formatJSONBoth`, main.go 407–462)

File writes are effects: they are modelled by the oracle
`fs : List Char → Bool` saying whether a write to a given path succeeds
(`writeFileWithDir`, main.go 464–472), and each function returns, besides
its Go results, the list of `(path, bytes)` writes it performed
successfully, in order. -/

/-- Failure modes of `formatJSON` / `formatJSONBoth`, one per error
return site (the `json.Marshal` error returns cannot fire for a value
decoded from `json.Unmarshal` and have no model counterpart). -/
inductive FmtErr where
  | parseFailed
  | writePrettyFailed
  | writeLatestPrettyFailed
  | unknownFormat
deriving DecidableEq, Repr

/-- `formatJSONBoth` (main.go 437–462): marshal minimized and pretty
forms; write the pretty form at the target path with `.json` replaced by
`.pp.json`; with `--latest` also write it at the derived latest path.
Either write failure returns the minimized bytes together with a non-nil
error; the pretty writes performed so far stand. -/
def formatJSONBoth (fs : List Char → Bool) (jsonData : JsonVal)
    (targetPath : List Char) (latest : Bool) :
    (List Char × List Char × Option FmtErr) × List (List Char × List Char) :=
  let minimized := jsonMarshal jsonData
  let pretty := jsonMarshalIndent jsonData
  let prettyPath := trimSuffixL targetPath (gs ".json") ++ gs ".pp.json"
  if fs prettyPath then
    if latest then
      let latestPrettyPath := generateLatestPath prettyPath
      if fs latestPrettyPath then
        ((minimized, gs "minimized (with pretty version)", none),
          [(prettyPath, pretty), (latestPrettyPath, pretty)])
      else
        ((minimized, gs "minimized", some .writeLatestPrettyFailed),
          [(prettyPath, pretty)])
    else
      ((minimized, gs "minimized (with pretty version)", none),
        [(prettyPath, pretty)])
  else
    ((minimized, gs "minimized", some .writePrettyFailed), [])

/-- `formatJSON` (main.go 407–434): pass bytes through untouched unless
the target path ends in `.json` case-insensitively and the mode is not
`original`; a body that fails to parse is returned untouched with an
error; otherwise re-serialize according to the mode. -/
def formatJSON (fs : List Char → Bool) (data : List Char)
    (format : String) (targetPath : List Char) (latest : Bool) :
    (List Char × List Char × Option FmtErr) × List (List Char × List Char) :=
  if ¬ (endsWithL (toLowerL targetPath) (gs ".json") = true) ∨ format = "original" then
    ((data, [], none), [])
  else
    match jsonParse data with
    | none => ((data, [], some .parseFailed), [])
    | some jsonData =>
      if format = "pretty" then ((jsonMarshalIndent jsonData, gs "pretty-printed", none), [])
      else if format = "minimized" then ((jsonMarshal jsonData, gs "minimized", none), [])
      else if format = "both" then formatJSONBoth fs jsonData targetPath latest
      else ((data, [], some .unknownFormat), [])

/-! ## Target Processor (`processTarget`, main.go 474–564) -/

/-- Outcome of `client.Do(req)` followed by reading the body: a transport
error after retries, or a response with its status code and body (a body
read error is not modelled; no claim depends on it). -/
inductive FetchRes where
  | netErr
  | response (statusCode : Nat) (body : List Char)

/-- Failure modes of `processTarget`, one per error return site. -/
inductive ProcErr where
  | resolvingPath (e : PathErr)
  | creatingRequest
  | parsingHeaders (e : HdrErr)
  | fetching
  | unexpectedStatus (code : Nat)
  | writingFile
deriving DecidableEq, Repr

/-- The per-target data `processTarget` consumes: the YAML path value,
the raw header lines, and whether `retryablehttp.NewRequest` succeeds for
the target's URL. -/
structure TargetRec where
  path : PathVal
  headers : List (List Char)
  reqOk : Bool

/-- `processTarget` (main.go 474–564): resolve the path; build the
request; parse headers when any are configured; fetch; reject any status
other than 200 before writing anything; format; on a formatter error fall
back to the original body bytes (main.go 532–538); write the main file
(fatal on failure); with `--latest` write the latest copy (failure only
logged).  Returns the Go error outcome and the successful writes in
order. -/
def processTarget {T L : Type} (te : TimeEnv T L) (now : T)
    (fs : List Char → Bool) (t : TargetRec) (fetch : FetchRes)
    (jsonFormat : String) (latest : Bool) :
    Except ProcErr Unit × List (List Char × List Char) :=
  match getResolvedPath te now t.path with
  | .error e => (.error (.resolvingPath e), [])
  | .ok resolvedPath =>
    if ¬ t.reqOk then (.error .creatingRequest, [])
    else
      let hdrCheck : Except HdrErr Unit :=
        if t.headers = [] then .ok ()
        else match parseHeaders t.headers with
          | .error e => .error e
          | .ok _ => .ok ()
      match hdrCheck with
      | .error e => (.error (.parsingHeaders e), [])
      | .ok _ =>
        match fetch with
        | .netErr => (.error .fetching, [])
        | .response code body =>
          if ¬ code = 200 then (.error (.unexpectedStatus code), [])
          else
            match formatJSON fs body jsonFormat resolvedPath latest with
            | ((fmtData, _fmtDesc, fmtErr), fmtWrites) =>
              let dataToWrite := if fmtErr.isSome then body else fmtData
              if fs resolvedPath then
                let baseWrites := fmtWrites ++ [(resolvedPath, dataToWrite)]
                if latest then
                  let latestPath := generateLatestPath resolvedPath
                  if fs latestPath then (.ok (), baseWrites ++ [(latestPath, dataToWrite)])
                  else (.ok (), baseWrites)
                else (.ok (), baseWrites)
              else (.error .writingFile, fmtWrites)

/-! ## Run Driver (`main`, main.go 566–619) and flag validation -/

/-- Observable events of the target loop: processing of target `i`, and
the inter-target `time.Sleep`. -/
inductive RunEv where
  | proc (i : Nat)
  | sleep (seconds : Nat)
deriving DecidableEq, Repr

/-- The target loop of `main` (main.go 598–614): process each target in
order — a failure is logged, never propagated — and sleep for the
configured delay after every target except the last (`delay > 0 && i <
len(targets)-1`, which holds exactly when further targets remain).
Returns each target's outcome with its writes, and the event trace. -/
def mainLoop {T L : Type} (te : TimeEnv T L) (now : T)
    (fs : List Char → Bool) (jsonFormat : String) (latest : Bool)
    (delay : Nat) :
    List (TargetRec × FetchRes) → Nat →
    List (Except ProcErr Unit × List (List Char × List Char)) × List RunEv
  | [], _ => ([], [])
  | (t, f) :: rest, i =>
    let r := processTarget te now fs t f jsonFormat latest
    let evsHere := RunEv.proc i ::
      (if 0 < delay ∧ rest.isEmpty = false then [RunEv.sleep delay] else [])
    let recRes := mainLoop te now fs jsonFormat latest delay rest (i + 1)
    (r :: recRes.1, evsHere ++ recRes.2)

/-- The command-line values as bound by the `flag` package. -/
structure FlagInput where
  configPath : String
  verbose : Bool
  jsonFormat : String
  latest : Bool
  delay : Int
  showVersion : Bool

/-- Membership in `validFormats` (main.go 203–208). -/
def validJSONFormat (f : String) : Bool :=
  decide (f = "original" ∨ f = "pretty" ∨ f = "minimized" ∨ f = "both")

/-- `parseFlags` (main.go 172–213): `--version` exits 0; a missing
`--config`, a negative delay, or an unknown `--json-format` exits 1;
otherwise the flags are returned.  `Except.error c` models `os.Exit(c)`. -/
def parseFlagsModel (fl : FlagInput) : Except Nat FlagInput :=
  if fl.showVersion then .error 0
  else if fl.configPath = "" then .error 1
  else if fl.delay < 0 then .error 1
  else if validJSONFormat fl.jsonFormat then .ok fl
  else .error 1

/-- `main` (main.go 566–619): flag validation, then config loading
(`loadConfig`, including `validateConfig`, abstracted to its outcome),
then logger setup (abstracted to `loggersOk`), then the target loop.  Per-
target failures are logged only; reaching the end of `main` is exit code
0.  Returns the exit code, the per-target outcomes, and the event
trace. -/
def mainModel {T L : Type} (te : TimeEnv T L) (now : T)
    (fs : List Char → Bool) (fl : FlagInput)
    (configLoad : Except Unit (List (TargetRec × FetchRes)))
    (loggersOk : Bool) :
    Nat × List (Except ProcErr Unit × List (List Char × List Char)) × List RunEv :=
  match parseFlagsModel fl with
  | .error c => (c, [], [])
  | .ok fl2 =>
    match configLoad with
    | .error _ => (1, [], [])
    | .ok targets =>
      if ¬ loggersOk then (1, [], [])
      else
        let loopRes := mainLoop te now fs fl2.jsonFormat fl2.latest fl2.delay.toNat targets 0
        (0, loopRes.1, loopRes.2)

/-! ## Shared helpers for the claim theorems -/

/-- A concrete `TimeEnv` over trivial timestamp/location types, used by
the witnesses: one known IANA zone and a fixed formatted output. -/
def witnessTimeEnv : TimeEnv Unit Unit where
  tzdb := fun s => if s = gs "Asia/Tokyo" then some () else none
  utcOf := fun _ => ()
  inZone := fun _ _ => ()
  fmtTime := fun _ _ => gs "2025-01-02 15:04:05"

/-- The timezone-conversion step of `generatePatternValue` (main.go
52–61) as a function: `UTC` maps to `Time.UTC`, otherwise the zone is
looked up and `Time.In` applied; `none` when the lookup fails. -/
def tzConvert {T L : Type} (te : TimeEnv T L) (zone : List Char) (now : T) :
    Option T :=
  if zone = gs "UTC" then some (te.utcOf now)
  else match te.tzdb zone with
    | none => none
    | some loc => some (te.inZone loc now)

/-- Replacing colons by dashes leaves no colon behind. -/
theorem replaceColonDash_no_colon (s : List Char) :
    ∀ c ∈ replaceColonDash s, ¬ c = ':' := by
  intro c hc
  simp only [replaceColonDash, List.mem_map] at hc
  obtain ⟨a, _, hEq⟩ := hc
  by_cases ha : a = ':'
  · rw [if_pos ha] at hEq
    rw [← hEq]
    decide
  · rw [if_neg ha] at hEq
    rw [← hEq]
    exact ha

/-- C2: a literal string path is returned unchanged by
`Target.GetResolvedPath`, and `validatePathConfig` rejects exactly the
empty literal with the empty-path error. -/
theorem c2_literal_path {T L : Type} (te : TimeEnv T L) (now : T)
    (tzdb : List Char → Option L) (s : List Char) :
    getResolvedPath te now (.str s) = .ok s ∧
    (validatePathConfig tzdb (.str s) = .error .emptyPath ↔ s = []) := by
  refine ⟨rfl, ?_⟩
  by_cases h : s = [] <;> simp [validatePathConfig, h]

/-- C4: when a pattern splits into three components with a known datetime
format and a resolvable (or `UTC`) timezone, any processing component
other than `slug` — `none` included — makes both `generatePatternValue`
and `validatePattern` fail with the unsupported-processing error. -/
theorem c4_unsupported_processing {T L : Type} (te : TimeEnv T L) (now : T)
    (pattern p0 p1 p2 : List Char)
    (hsplit : splitOnChar '-' pattern = [p0, p1, p2])
    (hfmt : (layoutOf p0).isSome = true)
    (htz : p1 = gs "UTC" ∨ (te.tzdb p1).isSome = true)
    (hproc : ¬ p2 = gs "slug") :
    generatePatternValue te now pattern = .error .unsupportedProcessing ∧
    validatePattern te.tzdb pattern = .error .unsupportedProcessing := by
  obtain ⟨layout, hlay⟩ := Option.isSome_iff_exists.mp hfmt
  constructor
  · unfold generatePatternValue
    rw [hsplit]
    by_cases hU : p1 = gs "UTC"
    · simp [hU, hlay, hproc]
    · rcases htz with h | h
      · exact absurd h hU
      · obtain ⟨loc, hloc⟩ := Option.isSome_iff_exists.mp h
        simp [hU, hloc, hlay, hproc]
  · unfold validatePattern
    rw [hsplit]
    by_cases hU : p1 = gs "UTC"
    · simp [hU, hlay, hproc]
    · rcases htz with h | h
      · exact absurd h hU
      · obtain ⟨loc, hloc⟩ := Option.isSome_iff_exists.mp h
        simp [hU, hloc, hlay, hproc]

/-- C4 witness: the pattern `DateTime-UTC-none` is rejected by both
functions with the unsupported-processing error. -/
theorem c4_unsupported_processing_witness :
    generatePatternValue witnessTimeEnv () (gs "DateTime-UTC-none") =
      .error .unsupportedProcessing ∧
    validatePattern witnessTimeEnv.tzdb (gs "DateTime-UTC-none") =
      .error .unsupportedProcessing :=
  c4_unsupported_processing witnessTimeEnv ()
    (gs "DateTime-UTC-none") (gs "DateTime") (gs "UTC") (gs "none")
    (by rfl) (by rfl) (Or.inl rfl) (by decide)

/-- C5: for a valid pattern with `slug` processing and an injected
timestamp, the resolver's output is exactly the timezone-converted,
layout-formatted timestamp with every `:` replaced by `-` — and nothing
else changed — so it contains no colon. -/
theorem c5_slug_processing {T L : Type} (te : TimeEnv T L) (now nowTz : T)
    (pattern p0 p1 p2 layout : List Char)
    (hsplit : splitOnChar '-' pattern = [p0, p1, p2])
    (hfmt : layoutOf p0 = some layout)
    (htz : tzConvert te p1 now = some nowTz)
    (hproc : p2 = gs "slug") :
    generatePatternValue te now pattern =
      .ok (replaceColonDash (te.fmtTime layout nowTz)) ∧
    ∀ c ∈ replaceColonDash (te.fmtTime layout nowTz), ¬ c = ':' := by
  refine ⟨?_, replaceColonDash_no_colon _⟩
  unfold generatePatternValue
  rw [hsplit]
  unfold tzConvert at htz
  by_cases hU : p1 = gs "UTC"
  · rw [if_pos hU] at htz
    obtain rfl : te.utcOf now = nowTz := Option.some_injective _ htz
    simp [hU, hfmt, hproc]
  · rw [if_neg hU] at htz
    match hloc : te.tzdb p1 with
    | none => rw [hloc] at htz; exact absurd htz (by simp)
    | some loc =>
      rw [hloc] at htz
      obtain rfl : te.inZone loc now = nowTz := Option.some_injective _ htz
      simp [hU, hloc, hfmt, hproc]

/-- C5 witness: `DateTime-UTC-slug` with the fixed injected timestamp
formats to `2025-01-02 15:04:05` and resolves to the colon-free
`2025-01-02 15-04-05`. -/
theorem c5_slug_processing_witness :
    generatePatternValue witnessTimeEnv () (gs "DateTime-UTC-slug") =
      .ok (gs "2025-01-02 15-04-05") :=
  (c5_slug_processing witnessTimeEnv () () (gs "DateTime-UTC-slug")
    (gs "DateTime") (gs "UTC") (gs "slug") (gs "2006-01-02 15:04:05")
    (by rfl) (by rfl) (by rfl) rfl).1.trans (by rfl)

/-- C6: `generateLatestPath` is the pure four-case rule — `.pp.json`
anywhere in the filename gives `latest.pp.json`, a `.json` filename
suffix gives `latest.json`, otherwise `latest` plus the (possibly empty)
extension — joined onto the original directory; in particular the four
spec examples hold. -/
theorem c6_generateLatestPath_rule :
    (∀ p : List Char,
      generateLatestPath p =
        (if containsL (basePath p) (gs ".pp.json") then
          joinPath (dirPath p) (gs "latest.pp.json")
        else if endsWithL (basePath p) (gs ".json") then
          joinPath (dirPath p) (gs "latest.json")
        else if extPath p = [] then joinPath (dirPath p) (gs "latest")
        else joinPath (dirPath p) (gs "latest" ++ extPath p))) ∧
    generateLatestPath (gs "./cache/data.pp.json") = gs "cache/latest.pp.json" ∧
    generateLatestPath (gs "./cache/data.json") = gs "cache/latest.json" ∧
    generateLatestPath (gs "./cache/data.bin") = gs "cache/latest.bin" ∧
    generateLatestPath (gs "./cache/data") = gs "cache/latest" :=
  ⟨fun _ => rfl, by rfl, by rfl, by rfl, by rfl⟩

/-- The inter-target delay trace the Run Driver specification describes:
one sleep between each pair of consecutive targets and none after the
last.  Stated from the spec's words, to be compared with `mainLoop`. -/
def specDelayTrace (delay : Nat) : Nat → Nat → List RunEv
  | 0, _ => []
  | 1, i => [.proc i]
  | n + 2, i => .proc i :: .sleep delay :: specDelayTrace delay (n + 1) (i + 1)

/-- Unfolding equation of `mainLoop` for a non-empty target list. -/
theorem mainLoop_cons {T L : Type} (te : TimeEnv T L) (now : T)
    (fs : List Char → Bool) (jsonFormat : String) (latest : Bool)
    (delay : Nat) (t : TargetRec) (f : FetchRes)
    (rest : List (TargetRec × FetchRes)) (i : Nat) :
    mainLoop te now fs jsonFormat latest delay ((t, f) :: rest) i =
      (processTarget te now fs t f jsonFormat latest ::
        (mainLoop te now fs jsonFormat latest delay rest (i + 1)).1,
       (RunEv.proc i ::
          (if 0 < delay ∧ rest.isEmpty = false then [RunEv.sleep delay] else [])) ++
        (mainLoop te now fs jsonFormat latest delay rest (i + 1)).2) := rfl

/-- C9: with a positive configured delay the target loop's event trace is
exactly process, sleep, process, …, process — one sleep between each pair
of consecutive targets, none after the final one — independently of every
target's outcome. -/
theorem c9_delay_trace {T L : Type} (te : TimeEnv T L) (now : T)
    (fs : List Char → Bool) (jsonFormat : String) (latest : Bool)
    (delay : Nat) (hpos : 0 < delay)
    (targets : List (TargetRec × FetchRes)) (i : Nat) :
    (mainLoop te now fs jsonFormat latest delay targets i).2 =
      specDelayTrace delay targets.length i := by
  induction targets generalizing i with
  | nil => rfl
  | cons tf rest ih =>
    obtain ⟨t, f⟩ := tf
    cases rest with
    | nil => rw [mainLoop_cons]; simp [mainLoop, specDelayTrace]
    | cons tf2 rest2 =>
      rw [mainLoop_cons, ih]
      simp [specDelayTrace, hpos]

/-- C9 witness: three targets (one failing) with delay 2 give exactly the
process/sleep/process/sleep/process trace. -/
theorem c9_delay_trace_witness :
    (mainLoop witnessTimeEnv () (fun _ => true) "original" false 2
      [(⟨.str (gs "a"), [], true⟩, .response 200 (gs "x")),
       (⟨.str (gs "b"), [], true⟩, .response 404 (gs "y")),
       (⟨.str (gs "c"), [], true⟩, .response 200 (gs "z"))] 0).2 =
      [.proc 0, .sleep 2, .proc 1, .sleep 2, .proc 2] :=
  (c9_delay_trace witnessTimeEnv () (fun _ => true) "original" false 2
    (by decide) _ 0).trans (by rfl)

/-- Helper: the result list of `mainLoop` has one entry per target. -/
theorem mainLoop_length {T L : Type} (te : TimeEnv T L) (now : T)
    (fs : List Char → Bool) (jsonFormat : String) (latest : Bool)
    (delay : Nat) (targets : List (TargetRec × FetchRes)) (i : Nat) :
    (mainLoop te now fs jsonFormat latest delay targets i).1.length =
      targets.length := by
  induction targets generalizing i with
  | nil => rfl
  | cons tf rest ih =>
    obtain ⟨t, f⟩ := tf
    rw [mainLoop_cons]
    simp [ih]

/-- Helper: the `k`-th result of `mainLoop` is `processTarget` applied to
the `k`-th target. -/
theorem mainLoop_getElem {T L : Type} (te : TimeEnv T L) (now : T)
    (fs : List Char → Bool) (jsonFormat : String) (latest : Bool)
    (delay : Nat) (targets : List (TargetRec × FetchRes)) (i k : Nat) :
    (mainLoop te now fs jsonFormat latest delay targets i).1[k]? =
      (targets[k]?).map
        (fun tf => processTarget te now fs tf.1 tf.2 jsonFormat latest) := by
  induction targets generalizing i k with
  | nil => rfl
  | cons tf rest ih =>
    obtain ⟨t, f⟩ := tf
    rw [mainLoop_cons]
    cases k with
    | zero => simp
    | succ k2 => simp [ih]

/-- C8 amended: with valid flags, a loading valid configuration, and
successful logger setup, the exit code is 0 and every target is processed
regardless of per-target outcomes; a flag-validation failure (without
`--version`) or a config-load failure exits 1 — and so does a logger
setup failure, which is what forces the amendment. -/
theorem c8_exit_codes {T L : Type} (te : TimeEnv T L) (now : T)
    (fs : List Char → Bool) (fl : FlagInput)
    (cfg : Except Unit (List (TargetRec × FetchRes)))
    (targets : List (TargetRec × FetchRes)) (loggersOk : Bool) :
    (parseFlagsModel fl = .ok fl → cfg = .ok targets → loggersOk = true →
      (mainModel te now fs fl cfg loggersOk).1 = 0 ∧
      (mainModel te now fs fl cfg loggersOk).2.1.length = targets.length) ∧
    (fl.showVersion = false →
      (fl.configPath = "" ∨ fl.delay < 0 ∨ validJSONFormat fl.jsonFormat = false) →
      (mainModel te now fs fl cfg loggersOk).1 = 1) ∧
    (parseFlagsModel fl = .ok fl → cfg = .error () →
      (mainModel te now fs fl cfg loggersOk).1 = 1) ∧
    (parseFlagsModel fl = .ok fl → cfg = .ok targets → loggersOk = false →
      (mainModel te now fs fl cfg loggersOk).1 = 1) := by
  refine ⟨?_, ?_, ?_, ?_⟩
  · intro hfl hcfg hlog
    subst hcfg hlog
    unfold mainModel
    rw [hfl]
    simp [mainLoop_length]
  · intro hver hbad
    unfold mainModel parseFlagsModel
    rw [hver]
    rcases hbad with h | h | h
    · simp [h]
    · by_cases hc : fl.configPath = "" <;>
        simp [hc, h, Int.not_lt.mpr (le_of_lt h)]
    · by_cases hc : fl.configPath = ""
      · simp [hc]
      · by_cases hd : fl.delay < 0 <;> simp [hc, hd, h]
  · intro hfl hcfg
    subst hcfg
    unfold mainModel
    rw [hfl]
  · intro hfl hcfg hlog
    subst hcfg hlog
    unfold mainModel
    rw [hfl]
    rfl

/-- C8 counterexample: with perfectly valid flags and a configuration
that loads, a logger-setup failure still exits with code 1, so startup
validation success alone does not guarantee exit code 0. -/
theorem c8_exit_codes_counterexample :
    parseFlagsModel ⟨"config.yaml", false, "original", false, 0, false⟩ =
      .ok ⟨"config.yaml", false, "original", false, 0, false⟩ ∧
    (mainModel witnessTimeEnv () (fun _ => true)
      ⟨"config.yaml", false, "original", false, 0, false⟩
      (.ok [(⟨.str (gs "a"), [], true⟩, .response 200 (gs "x"))]) false).1 = 1 ∧
    ¬ (mainModel witnessTimeEnv () (fun _ => true)
      ⟨"config.yaml", false, "original", false, 0, false⟩
      (.ok [(⟨.str (gs "a"), [], true⟩, .response 200 (gs "x"))]) false).1 = 0 :=
  ⟨rfl, rfl, by decide⟩

/-- C8 witness: concrete runs exercising all four parts of the amended
statement. -/
theorem c8_exit_codes_witness :
    (mainModel witnessTimeEnv () (fun _ => true)
      ⟨"config.yaml", false, "original", false, 0, false⟩ (.ok []) true).1 = 0 ∧
    (mainModel witnessTimeEnv () (fun _ => true)
      ⟨"", false, "original", false, 0, false⟩ (.ok []) true).1 = 1 ∧
    (mainModel witnessTimeEnv () (fun _ => true)
      ⟨"config.yaml", false, "original", false, 0, false⟩ (.error ()) true).1 = 1 ∧
    (mainModel witnessTimeEnv () (fun _ => true)
      ⟨"config.yaml", false, "original", false, 0, false⟩ (.ok []) false).1 = 1 :=
  ⟨((c8_exit_codes witnessTimeEnv () (fun _ => true)
      ⟨"config.yaml", false, "original", false, 0, false⟩ (.ok []) [] true).1
      rfl rfl rfl).1,
   (c8_exit_codes witnessTimeEnv () (fun _ => true)
      ⟨"", false, "original", false, 0, false⟩ (.ok []) [] true).2.1 rfl
     (Or.inl rfl),
   (c8_exit_codes witnessTimeEnv () (fun _ => true)
      ⟨"config.yaml", false, "original", false, 0, false⟩ (.error ()) [] true).2.2.1
      rfl rfl,
   (c8_exit_codes witnessTimeEnv () (fun _ => true)
      ⟨"config.yaml", false, "original", false, 0, false⟩ (.ok []) [] false).2.2.2
      rfl rfl rfl⟩

/-- Helper: a target whose response status is not 200 fails with the
unexpected-status error before writing anything. -/
theorem processTarget_non200 {T L : Type} (te : TimeEnv T L) (now : T)
    (fs : List Char → Bool) (t : TargetRec) (code : Nat) (body : List Char)
    (jsonFormat : String) (latest : Bool) (p : List Char)
    (hpath : getResolvedPath te now t.path = .ok p)
    (hreq : t.reqOk = true)
    (hhdr : t.headers = [] ∨ ∃ m, parseHeaders t.headers = .ok m)
    (hcode : ¬ code = 200) :
    processTarget te now fs t (.response code body) jsonFormat latest =
      (.error (.unexpectedStatus code), []) := by
  unfold processTarget
  rw [hpath]
  rcases hhdr with h | ⟨m, h⟩
  · simp [hreq, h, hcode]
  · by_cases he : t.headers = []
    · simp [hreq, he, hcode]
    · simp [hreq, he, h, hcode]

/-- C3: a target whose response carries any status other than 200
produces no write at all (no main, pretty, or latest file), is recorded
as the unexpected-status failure, and every other target still gets its
own processing slot (one result per target). -/
theorem c3_non200_no_write {T L : Type} (te : TimeEnv T L) (now : T)
    (fs : List Char → Bool) (jsonFormat : String) (latest : Bool) (delay : Nat)
    (targets : List (TargetRec × FetchRes)) (k : Nat) (t : TargetRec)
    (code : Nat) (body : List Char) (p : List Char)
    (hk : targets[k]? = some (t, .response code body))
    (hpath : getResolvedPath te now t.path = .ok p)
    (hreq : t.reqOk = true)
    (hhdr : t.headers = [] ∨ ∃ m, parseHeaders t.headers = .ok m)
    (hcode : ¬ code = 200) :
    (mainLoop te now fs jsonFormat latest delay targets 0).1.length =
      targets.length ∧
    (mainLoop te now fs jsonFormat latest delay targets 0).1[k]? =
      some (.error (.unexpectedStatus code), []) := by
  refine ⟨mainLoop_length _ _ _ _ _ _ _ _, ?_⟩
  rw [mainLoop_getElem, hk]
  simp [processTarget_non200 te now fs t code body jsonFormat latest p
    hpath hreq hhdr hcode]

/-- C3 witness: a 404 first target writes nothing and is recorded as
failed while the run still has a slot for the second target. -/
theorem c3_non200_no_write_witness :
    (mainLoop witnessTimeEnv () (fun _ => true) "original" false 0
      [(⟨.str (gs "a.json"), [], true⟩, .response 404 (gs "nf")),
       (⟨.str (gs "b.json"), [], true⟩, .response 200 (gs "ok"))] 0).1.length = 2 ∧
    (mainLoop witnessTimeEnv () (fun _ => true) "original" false 0
      [(⟨.str (gs "a.json"), [], true⟩, .response 404 (gs "nf")),
       (⟨.str (gs "b.json"), [], true⟩, .response 200 (gs "ok"))] 0).1[0]? =
      some (.error (.unexpectedStatus 404), []) :=
  ⟨(c3_non200_no_write witnessTimeEnv () (fun _ => true) "original" false 0
      [(⟨.str (gs "a.json"), [], true⟩, .response 404 (gs "nf")),
       (⟨.str (gs "b.json"), [], true⟩, .response 200 (gs "ok"))] 0
      ⟨.str (gs "a.json"), [], true⟩ 404 (gs "nf") (gs "a.json")
      rfl rfl rfl (Or.inl rfl) (by decide)).1.trans (by rfl),
   (c3_non200_no_write witnessTimeEnv () (fun _ => true) "original" false 0
      [(⟨.str (gs "a.json"), [], true⟩, .response 404 (gs "nf")),
       (⟨.str (gs "b.json"), [], true⟩, .response 200 (gs "ok"))] 0
      ⟨.str (gs "a.json"), [], true⟩ 404 (gs "nf") (gs "a.json")
      rfl rfl rfl (Or.inl rfl) (by decide)).2⟩

/-- Helper: lookup after a map assignment. -/
theorem getAssoc_setAssoc (m : List (List Char × List Char))
    (k k2 v : List Char) :
    getAssoc (setAssoc m k v) k2 = if k = k2 then some v else getAssoc m k2 := by
  induction m with
  | nil => by_cases h : k = k2 <;> simp [setAssoc, getAssoc, h]
  | cons kv rest ih =>
    obtain ⟨k3, v3⟩ := kv
    simp only [setAssoc]
    by_cases h3 : k3 = k
    · rw [if_pos h3]
      subst h3
      by_cases h : k3 = k2
      · simp [getAssoc, h]
      · simp [getAssoc, h]
    · rw [if_neg h3]
      by_cases h : k3 = k2
      · subst h
        have hk : ¬ k = k3 := fun hh => h3 hh.symm
        simp [getAssoc, hk]
      · simp [getAssoc, h, ih]

/-- The successful parse of a single header line: the trimmed name and
value when the line is non-empty, splits on `": "`, and has a non-empty
trimmed name. -/
def parseLine (l : List Char) : Option (List Char × List Char) :=
  if l = [] then none
  else
    match (splitN2 (gs ": ") l).2 with
    | none => none
    | some p1 =>
      let name := trimSpaceL (splitN2 (gs ": ") l).1
      if name = [] then none else some (name, trimSpaceL p1)

/-- The value of the last line in the list whose canonical header name is
`k` (the set-semantics reference the spec describes). -/
def lastHeaderValue (k : List Char) : List (List Char) → Option (List Char)
  | [] => none
  | l :: rest =>
    match lastHeaderValue k rest with
    | some v => some v
    | none =>
      match parseLine l with
      | some nv =>
        if canonicalMIMEHeaderKey nv.1 = k then some nv.2 else none
      | none => none

/-- Helper: the map built by the header-parsing loop answers every lookup
with the last matching line's value, falling back to the starting map. -/
theorem parseHeadersAux_getAssoc (ls : List (List Char)) :
    ∀ m m2, parseHeadersAux m ls = .ok m2 → ∀ k,
      getAssoc m2 k =
        match lastHeaderValue k ls with
        | some v => some v
        | none => getAssoc m k := by
  induction ls with
  | nil =>
    intro m m2 hok k
    obtain rfl : m = m2 := by simpa [parseHeadersAux] using hok
    simp [lastHeaderValue]
  | cons l rest ih =>
    intro m m2 hok k
    by_cases hl : l = []
    · rw [hl] at hok
      simp only [parseHeadersAux, if_pos rfl] at hok
      rw [ih m m2 hok k, hl]
      cases hlast : lastHeaderValue k rest <;>
        simp [lastHeaderValue, parseLine, hlast]
    · simp only [parseHeadersAux, if_neg hl] at hok
      cases hsp : (splitN2 (gs ": ") l).2 with
      | none =>
        rw [hsp] at hok
        exact absurd hok (by simp)
      | some p1 =>
        rw [hsp] at hok
        replace hok :
            (if trimSpaceL (splitN2 (gs ": ") l).1 = [] then
              (Except.error HdrErr.emptyName :
                Except HdrErr (List (List Char × List Char)))
            else
              parseHeadersAux
                (setAssoc m (canonicalMIMEHeaderKey (trimSpaceL (splitN2 (gs ": ") l).1))
                  (trimSpaceL p1)) rest) = .ok m2 := hok
        by_cases hname : trimSpaceL (splitN2 (gs ": ") l).1 = []
        · rw [if_pos hname] at hok
          exact absurd hok (by simp)
        · rw [if_neg hname] at hok
          have hline : parseLine l =
              some (trimSpaceL (splitN2 (gs ": ") l).1, trimSpaceL p1) := by
            simp [parseLine, hl, hsp, hname]
          rw [ih _ m2 hok k]
          simp only [lastHeaderValue, hline]
          cases hlast : lastHeaderValue k rest with
          | some v => simp
          | none =>
            simp only [getAssoc_setAssoc]
            by_cases hkk : canonicalMIMEHeaderKey (trimSpaceL (splitN2 (gs ": ") l).1) = k
            · simp [hkk]
            · simp [hkk]

/-- C7: when the header lines parse successfully, the resulting mapping
binds every case-normalised name present in the list to the value of its
last occurrence — later entries overwrite earlier ones (set semantics). -/
theorem c7_last_entry_wins (ls : List (List Char))
    (m : List (List Char × List Char)) (k v : List Char)
    (hok : parseHeaders ls = .ok m)
    (hlast : lastHeaderValue k ls = some v) :
    getAssoc m k = some v := by
  have h := parseHeadersAux_getAssoc ls [] m hok k
  rw [hlast] at h
  exact h

/-- C7 witness: two occurrences of the same case-normalised name keep
only the later value. -/
theorem c7_last_entry_wins_witness :
    parseHeaders [gs "X-Test: one", gs "x-test: two"] =
      .ok [(gs "X-Test", gs "two")] ∧
    getAssoc [(gs "X-Test", gs "two")] (gs "X-Test") = some (gs "two") :=
  ⟨by rfl,
   c7_last_entry_wins [gs "X-Test: one", gs "x-test: two"]
     [(gs "X-Test", gs "two")] (gs "X-Test") (gs "two") (by rfl) (by rfl)⟩

/-- Every string starts with itself. -/
theorem startsWithL_refl (p : List Char) : startsWithL p p = true := by
  induction p with
  | nil => rfl
  | cons c rest ih => simp [startsWithL, ih]

/-- A prefix of `x` is a prefix of `x ++ y`. -/
theorem startsWithL_append (x y p : List Char) (h : startsWithL x p = true) :
    startsWithL (x ++ y) p = true := by
  induction p generalizing x with
  | nil => simp [startsWithL]
  | cons q ps ih =>
    cases x with
    | nil => simp [startsWithL] at h
    | cons a as =>
      simp only [startsWithL, Bool.and_eq_true, decide_eq_true_eq] at h
      simp [startsWithL, h.1, ih as h.2]

/-- A prefix is no longer than the string. -/
theorem startsWithL_length (x p : List Char) (h : startsWithL x p = true) :
    p.length ≤ x.length := by
  induction p generalizing x with
  | nil => simp
  | cons q ps ih =>
    cases x with
    | nil => simp [startsWithL] at h
    | cons a as =>
      simp only [startsWithL, Bool.and_eq_true] at h
      simpa using ih as h.2

/-- Whether `p` is a prefix is decided within the first `p.length`
characters. -/
theorem startsWithL_append_of_le (x y p : List Char) (h : p.length ≤ x.length) :
    startsWithL (x ++ y) p = startsWithL x p := by
  induction p generalizing x with
  | nil => simp [startsWithL]
  | cons q ps ih =>
    cases x with
    | nil => simp at h
    | cons a as =>
      simp only [List.cons_append, startsWithL, List.append_eq]
      rw [ih as (by simpa using h)]

/-- A suffix of `b` is a suffix of `a ++ b`. -/
theorem endsWithL_append_left (a b suf : List Char)
    (h : endsWithL b suf = true) : endsWithL (a ++ b) suf = true := by
  unfold endsWithL at h ⊢
  rw [List.reverse_append]
  exact startsWithL_append _ _ _ h

/-- Whether `suf` is a suffix of `a ++ b` only depends on `b` when `b` is
at least as long as `suf`. -/
theorem endsWithL_append_of_le (a b suf : List Char)
    (h : suf.length ≤ b.length) :
    endsWithL (a ++ b) suf = endsWithL b suf := by
  unfold endsWithL
  rw [List.reverse_append]
  exact startsWithL_append_of_le _ _ _ (by simpa using h)

/-- A suffix is no longer than the string. -/
theorem endsWithL_length (s p : List Char) (h : endsWithL s p = true) :
    p.length ≤ s.length := by
  unfold endsWithL at h
  simpa using startsWithL_length _ _ h

/-- `takeWhile` passes through a block that satisfies the predicate. -/
theorem takeWhile_append_all {α : Type} (pred : α → Bool) (xs ys : List α)
    (h : ∀ x ∈ xs, pred x = true) :
    (xs ++ ys).takeWhile pred = xs ++ ys.takeWhile pred := by
  induction xs with
  | nil => rfl
  | cons a as ih =>
    have ha := h a (by simp)
    simp only [List.cons_append, List.takeWhile_cons, ha, if_true]
    rw [ih fun x hx => h x (by simp [hx])]

/-- `takeWhile` never lengthens a list. -/
theorem takeWhile_length_le {α : Type} (pred : α → Bool) (l : List α) :
    (l.takeWhile pred).length ≤ l.length := by
  induction l with
  | nil => simp
  | cons a as ih =>
    by_cases h : pred a = true
    · simp only [List.takeWhile_cons, h, if_true, List.length_cons]
      omega
    · simp [List.takeWhile_cons, h]

/-- `dirPath` ignores a slash-free tail: appending any slash-free block
after `core` yields the same directory. -/
theorem dirPath_append (core b b2 : List Char)
    (hb : ∀ c ∈ b, nonSlash c = true) (hb2 : ∀ c ∈ b2, nonSlash c = true) :
    dirPath (core ++ b) = dirPath (core ++ b2) := by
  have key : ∀ x : List Char, (∀ c ∈ x, nonSlash c = true) →
      dirPath (core ++ x) =
        (if (core.reverse.takeWhile nonSlash).length + x.length =
            core.length + x.length then cleanPath []
         else cleanPath ((core ++ x).take
            (core.length + x.length -
              ((core.reverse.takeWhile nonSlash).length + x.length)))) := by
    intro x hx
    unfold dirPath
    rw [List.reverse_append,
      takeWhile_append_all nonSlash x.reverse core.reverse
        (fun c hc => hx c (by simpa using hc))]
    simp [Nat.add_comm]
  rw [key b hb, key b2 hb2]
  have hle : (core.reverse.takeWhile nonSlash).length ≤ core.length := by
    simpa using takeWhile_length_le nonSlash core.reverse
  by_cases h : (core.reverse.takeWhile nonSlash).length = core.length
  · simp [h]
  · rw [if_neg (by omega), if_neg (by omega)]
    have harith : ∀ n : Nat,
        core.length + n - ((core.reverse.takeWhile nonSlash).length + n) =
          core.length - (core.reverse.takeWhile nonSlash).length := by
      intro n; omega
    rw [harith, harith,
      List.take_append_of_le_length (by omega),
      List.take_append_of_le_length (by omega)]

/-- `basePath` of a path with a non-empty slash-free tail is the tail
prepended by the slash-free end of `core`. -/
theorem basePath_append (core b : List Char)
    (hb : ∀ c ∈ b, nonSlash c = true) (hne : ¬ b = []) :
    basePath (core ++ b) = (core.reverse.takeWhile nonSlash).reverse ++ b := by
  have hbrev : ∀ c ∈ b.reverse, nonSlash c = true := by
    intro c hc; exact hb c (by simpa using hc)
  obtain ⟨c0, brest, hb0⟩ : ∃ c0 brest, b.reverse = c0 :: brest := by
    cases hrev : b.reverse with
    | nil => exact absurd (by simpa using hrev) hne
    | cons c0 brest => exact ⟨c0, brest, rfl⟩
  have hc0 : nonSlash c0 = true := hbrev c0 (by simp [hb0])
  have hc0s : isSlashB c0 = false := by
    unfold nonSlash at hc0
    unfold isSlashB
    by_cases h : c0 = '/' <;> simp [h] at hc0 ⊢
  have hpne : ¬ core ++ b = [] := by
    intro h
    exact hne (by simpa using congrArg (List.drop core.length) h)
  have hdrop : List.dropWhile isSlashB (c0 :: (brest ++ core.reverse)) =
      c0 :: (brest ++ core.reverse) := by
    rw [List.dropWhile_cons, hc0s]
    simp
  unfold basePath
  rw [if_neg hpne, List.reverse_append, hb0, List.cons_append, hdrop]
  have hq : ¬ ((c0 :: (brest ++ core.reverse)).reverse = ([] : List Char)) := by
    simp
  rw [if_neg hq, List.reverse_reverse, ← List.cons_append, ← hb0,
    takeWhile_append_all nonSlash b.reverse core.reverse hbrev]
  simp

/-- Containment is preserved by prepending. -/
theorem containsL_append_left (x y sub : List Char)
    (h : containsL y sub = true) : containsL (x ++ y) sub = true := by
  induction x with
  | nil => simpa using h
  | cons a as ih =>
    rw [List.cons_append]
    unfold containsL
    by_cases hs : startsWithL (a :: (as ++ y)) sub = true
    · rw [if_pos hs]
    · rw [if_neg hs]
      exact ih

/-- A string that ends in `sub` contains `sub`. -/
theorem containsL_append_self (x sub : List Char) :
    containsL (x ++ sub) sub = true :=
  containsL_append_left x sub sub
    (by unfold containsL; simp [startsWithL_refl])

/-- Trimming a suffix shorter than a slash-free tail happens inside the
tail. -/
theorem trimSuffixL_append (core b suf : List Char)
    (h : suf.length ≤ b.length) :
    trimSuffixL (core ++ b) suf = core ++ trimSuffixL b suf := by
  unfold trimSuffixL
  rw [endsWithL_append_of_le core b suf h]
  by_cases he : endsWithL b suf = true
  · rw [if_pos he, if_pos he]
    rw [List.take_append_eq_append_take]
    have h1 : core.length + b.length - suf.length - core.length =
        b.length - suf.length := by omega
    have h2 : core.length ≤ core.length + b.length - suf.length := by omega
    simp only [List.length_append]
    rw [List.take_of_length_le (by simpa using h2), h1]
  · rw [if_neg he, if_neg he]

/-- The latest path derived from the pretty path `target minus .json plus
.pp.json` is `latest.pp.json` in the original target's directory, for any
target path whose filename part (a slash-free tail) ends in `.json` up to
case. -/
theorem generateLatestPath_pretty (core base : List Char)
    (hb : ∀ c ∈ base, nonSlash c = true)
    (hjson : endsWithL (toLowerL base) (gs ".json") = true) :
    generateLatestPath (trimSuffixL (core ++ base) (gs ".json") ++ gs ".pp.json") =
      joinPath (dirPath (core ++ base)) (gs "latest.pp.json") := by
  have hlen5 : (gs ".json").length ≤ base.length := by
    have := endsWithL_length _ _ hjson
    simpa [toLowerL] using this
  have htrim : trimSuffixL (core ++ base) (gs ".json") =
      core ++ trimSuffixL base (gs ".json") :=
    trimSuffixL_append core base (gs ".json") hlen5
  have htsub : ∀ c ∈ trimSuffixL base (gs ".json"), c ∈ base := by
    intro c hc
    unfold trimSuffixL at hc
    by_cases he : endsWithL base (gs ".json") = true
    · rw [if_pos he] at hc
      exact List.take_subset _ _ hc
    · rw [if_neg he] at hc
      exact hc
  have hb2 : ∀ c ∈ trimSuffixL base (gs ".json") ++ gs ".pp.json",
      nonSlash c = true := by
    intro c hc
    rcases List.mem_append.mp hc with h | h
    · exact hb c (htsub c h)
    · exact (by decide : ∀ c ∈ gs ".pp.json", nonSlash c = true) c h
  have hb2ne : ¬ (trimSuffixL base (gs ".json") ++ gs ".pp.json" = []) := by
    simp [gs]
  have hcontains :
      containsL ((core.reverse.takeWhile nonSlash).reverse ++
        (trimSuffixL base (gs ".json") ++ gs ".pp.json")) (gs ".pp.json") = true := by
    rw [← List.append_assoc]
    exact containsL_append_self _ _
  rw [htrim, List.append_assoc]
  simp only [generateLatestPath, basePath_append core _ hb2 hb2ne, hcontains, if_true]
  rw [dirPath_append core _ base hb2 hb]

/-- C10: in `both` mode with `--latest` set, a body that parses, and all
writes succeeding, the formatter itself writes the pretty bytes at the
derived `.pp.json` path and at `latest.pp.json` in the target's
directory, and the caller then writes the minimized bytes at the target
path and at the target's derived latest path. -/
theorem c10_both_latest_writes {T L : Type} (te : TimeEnv T L) (now : T)
    (fs : List Char → Bool) (t : TargetRec) (body : List Char) (v : JsonVal)
    (core base : List Char)
    (hpath : getResolvedPath te now t.path = .ok (core ++ base))
    (hreq : t.reqOk = true)
    (hhdr : t.headers = [] ∨ ∃ m, parseHeaders t.headers = .ok m)
    (hb : ∀ c ∈ base, nonSlash c = true)
    (hjson : endsWithL (toLowerL base) (gs ".json") = true)
    (hparse : jsonParse body = some v)
    (hfs : ∀ q, fs q = true) :
    processTarget te now fs t (.response 200 body) "both" true =
      (.ok (),
       [(trimSuffixL (core ++ base) (gs ".json") ++ gs ".pp.json",
           jsonMarshalIndent v),
        (joinPath (dirPath (core ++ base)) (gs "latest.pp.json"),
           jsonMarshalIndent v),
        (core ++ base, jsonMarshal v),
        (generateLatestPath (core ++ base), jsonMarshal v)]) := by
  have hjsonp : endsWithL (toLowerL (core ++ base)) (gs ".json") = true := by
    unfold toLowerL
    rw [List.map_append]
    exact endsWithL_append_left _ _ _ hjson
  have hfmt : formatJSON fs body "both" (core ++ base) true =
      ((jsonMarshal v, gs "minimized (with pretty version)", none),
       [(trimSuffixL (core ++ base) (gs ".json") ++ gs ".pp.json",
           jsonMarshalIndent v),
        (generateLatestPath
            (trimSuffixL (core ++ base) (gs ".json") ++ gs ".pp.json"),
           jsonMarshalIndent v)]) := by
    simp [formatJSON, hjsonp, hparse, formatJSONBoth, hfs]
  unfold processTarget
  rw [hpath]
  have hhdrok : (if t.headers = [] then (Except.ok () : Except HdrErr Unit)
      else match parseHeaders t.headers with
        | .error e => .error e
        | .ok _ => .ok ()) = .ok () := by
    rcases hhdr with h | ⟨m, h⟩
    · rw [if_pos h]
    · by_cases he : t.headers = []
      · rw [if_pos he]
      · rw [if_neg he, h]
  simp only [hreq, Bool.not_true, hhdrok]
  rw [hfmt]
  simp only [Option.isSome_none, Bool.false_eq_true, if_false, hfs, if_true]
  rw [generateLatestPath_pretty core base hb hjson]
  simp [hfs]

/-- C10 witness: a concrete run writing all four files. -/
theorem c10_both_latest_writes_witness :
    processTarget witnessTimeEnv () (fun _ => true)
      ⟨.str (gs "./cache/data.json"), [], true⟩
      (.response 200 (gs "[1, 2]")) "both" true =
      (.ok (),
       [(gs "./cache/data.pp.json", gs "[\n  1,\n  2\n]"),
        (gs "cache/latest.pp.json", gs "[\n  1,\n  2\n]"),
        (gs "./cache/data.json", gs "[1,2]"),
        (gs "cache/latest.json", gs "[1,2]")]) :=
  (c10_both_latest_writes witnessTimeEnv () (fun _ => true)
    ⟨.str (gs "./cache/data.json"), [], true⟩ (gs "[1, 2]")
    (.arr [.num 1, .num 2]) (gs "./cache/") (gs "data.json")
    (by rfl) rfl (Or.inl rfl) (by decide) (by rfl) (by rfl)
    (fun _ => rfl)).trans (by rfl)

/-- C1 amended: in `both` mode, when the derived pretty write fails the
target is still reported as succeeded and the failure is non-fatal, but
the caller's fallback then writes the ORIGINAL body bytes at the target
path, not the minimized serialization (main.go 532–538 forces
`dataToWrite = bodyBytes` on any non-nil formatter error). -/
theorem c1_pretty_write_failure {T L : Type} (te : TimeEnv T L) (now : T)
    (fs : List Char → Bool) (t : TargetRec) (body p : List Char) (v : JsonVal)
    (latest : Bool)
    (hpath : getResolvedPath te now t.path = .ok p)
    (hreq : t.reqOk = true)
    (hhdr : t.headers = [] ∨ ∃ m, parseHeaders t.headers = .ok m)
    (hjson : endsWithL (toLowerL p) (gs ".json") = true)
    (hparse : jsonParse body = some v)
    (hpfail : fs (trimSuffixL p (gs ".json") ++ gs ".pp.json") = false)
    (hmain : fs p = true) :
    processTarget te now fs t (.response 200 body) "both" latest =
      (.ok (), (p, body) ::
        (if latest ∧ fs (generateLatestPath p) = true
         then [(generateLatestPath p, body)] else [])) := by
  have hfmt : formatJSON fs body "both" p latest =
      ((jsonMarshal v, gs "minimized", some .writePrettyFailed), []) := by
    simp [formatJSON, hjson, hparse, formatJSONBoth, hpfail]
  unfold processTarget
  rw [hpath]
  have hhdrok : (if t.headers = [] then (Except.ok () : Except HdrErr Unit)
      else match parseHeaders t.headers with
        | .error e => .error e
        | .ok _ => .ok ()) = .ok () := by
    rcases hhdr with h | ⟨m, h⟩
    · rw [if_pos h]
    · by_cases he : t.headers = []
      · rw [if_pos he]
      · rw [if_neg he, h]
  simp only [hreq, Bool.not_true, hhdrok]
  rw [hfmt]
  simp only [Option.isSome_some, if_true, hmain, List.nil_append]
  by_cases hl : latest = true
  · subst hl
    by_cases hlp : fs (generateLatestPath p) = true
    · simp [hlp]
    · simp [hlp]
  · replace hl : latest = false := by
      cases latest
      · rfl
      · exact absurd rfl hl
    subst hl
    simp

/-- C1 counterexample: body `[1, 2]` parses as JSON, the derived pretty
write fails, the target is reported as succeeded — but the bytes written
at the target path are the original `[1, 2]`, not the minimized `[1,2]`
serialization of the parsed body. -/
theorem c1_pretty_write_failure_counterexample :
    jsonParse (gs "[1, 2]") = some (.arr [.num 1, .num 2]) ∧
    jsonMarshal (JsonVal.arr [.num 1, .num 2]) = gs "[1,2]" ∧
    (fun q => if q = gs "cache/a.pp.json" then false else true)
      (gs "cache/a.pp.json") = false ∧
    processTarget witnessTimeEnv ()
      (fun q => if q = gs "cache/a.pp.json" then false else true)
      ⟨.str (gs "cache/a.json"), [], true⟩
      (.response 200 (gs "[1, 2]")) "both" false =
      (.ok (), [(gs "cache/a.json", gs "[1, 2]")]) ∧
    ¬ gs "[1, 2]" = gs "[1,2]" :=
  ⟨rfl, rfl, by rfl, by rfl, by decide⟩

/-- C1 witness: the amended statement at the counterexample's input. -/
theorem c1_pretty_write_failure_witness :
    processTarget witnessTimeEnv ()
      (fun q => if q = gs "cache/a.pp.json" then false else true)
      ⟨.str (gs "cache/a.json"), [], true⟩
      (.response 200 (gs "[1, 2]")) "both" false =
      (.ok (), [(gs "cache/a.json", gs "[1, 2]")]) :=
  (c1_pretty_write_failure witnessTimeEnv ()
    (fun q => if q = gs "cache/a.pp.json" then false else true)
    ⟨.str (gs "cache/a.json"), [], true⟩ (gs "[1, 2]") (gs "cache/a.json")
    (.arr [.num 1, .num 2]) false rfl rfl (Or.inl rfl) (by rfl) (by rfl)
    (by rfl) (by rfl)).trans (by rfl)
